import Mathlib

/-!
Shallow embedding of the ElevatorControlSystem dispatch-and-simulation core.

The embedding follows the TypeScript sources:
* the data model (models/elevator.ts, models/building.ts with the
  targetFloors-array revision of the Elevator interface),
* the SCAN sorter sortRequests / updateElevatorTargets (priorityAlgo.ts),
* the dispatch selector selectBestElevator of services/algorithm.ts,
* the dispatch selector selectBestElevator of services/psoService.ts with
  its helpers getClosestElevator and getBestElevatorBasedOnTargetDifference,
* the fleet operations of services/elevatorService.ts
  (getStatus, pickup, updateStatus, addTarget, step, configureBuilding,
  resetElevators) over the Building class.

JavaScript numbers are modelled as Int (all arithmetic in the core is
integer arithmetic).  JavaScript's Array.prototype.sort with a comparator
cmp is modelled as the stable sort List.insertionSort with the relation
"cmp a b <= 0"; for every comparator used by the sources the relation is a
total preorder, so the sorted result is the unique stable reordering.
-/

namespace ElevatorControlSystem

/-- The status field of an elevator: 'up' | 'down' | 'idle' | 'off'. -/
inductive Status where
  | up
  | down
  | idle
  | off
deriving DecidableEq, Repr

/-- One elevator record (models/elevator.ts, targetFloors revision). -/
structure Elevator where
  id : Int
  currentFloor : Int
  targetFloors : List Int
  status : Status
deriving DecidableEq, Repr

/-- The building configuration (models/building.ts). -/
structure BuildingConfig where
  numberOfFloors : Int
  activeElevators : Int
deriving DecidableEq, Repr

/-- The building: configuration plus the fixed 16-slot elevator array. -/
structure Building where
  config : BuildingConfig
  elevators : List Elevator
deriving DecidableEq, Repr

namespace PriorityAlgo

/-- The comparator used by sortRequests when direction is 'up', rendered as
the Boolean relation "comparator(a, b) <= 0".  Source branches:
both at or above the current floor compare by a - b; a floor at or above the
current floor precedes one below it; otherwise compare by a - b. -/
def upLe (currentFloor a b : Int) : Bool :=
  if currentFloor ≤ a ∧ currentFloor ≤ b then decide (a ≤ b)
  else if currentFloor ≤ a then true
  else if currentFloor ≤ b then false
  else decide (a ≤ b)

/-- The comparator used by sortRequests when direction is 'down', as the
relation "comparator(a, b) <= 0".  Source branches: both at or below the
current floor compare by b - a; a floor at or below the current floor
precedes one above it; otherwise compare by b - a. -/
def downLe (currentFloor a b : Int) : Bool :=
  if a ≤ currentFloor ∧ b ≤ currentFloor then decide (b ≤ a)
  else if a ≤ currentFloor then true
  else if b ≤ currentFloor then false
  else decide (b ≤ a)

/-- The comparator used by sortRequests when direction is 'idle' or 'off',
as the relation "comparator(a, b) <= 0": compare by absolute distance
Math.abs(x - currentFloor). -/
def idleLe (currentFloor a b : Int) : Bool :=
  decide (|a - currentFloor| ≤ |b - currentFloor|)

/-- sortRequests (priorityAlgo.ts): sort the target floors with the
comparator selected by the elevator's direction. -/
def sortRequests (currentFloor : Int) (direction : Status)
    (targetFloors : List Int) : List Int :=
  match direction with
  | .up => targetFloors.insertionSort (fun a b => upLe currentFloor a b = true)
  | .down => targetFloors.insertionSort (fun a b => downLe currentFloor a b = true)
  | _ => targetFloors.insertionSort (fun a b => idleLe currentFloor a b = true)

/-- updateElevatorTargets (priorityAlgo.ts): write the sorted queue back. -/
def updateElevatorTargets (elevator : Elevator) : Elevator :=
  { elevator with
    targetFloors :=
      sortRequests elevator.currentFloor elevator.status elevator.targetFloors }

/-- The spec's description of Reorder for direction Up: the floors at or
above the current floor sorted ascending, followed by the floors below the
current floor sorted ascending. -/
def reorderUpSpec (currentFloor : Int) (targets : List Int) : List Int :=
  (targets.filter (fun a => decide (currentFloor ≤ a))).insertionSort (· ≤ ·) ++
    (targets.filter (fun a => decide (a < currentFloor))).insertionSort (· ≤ ·)

end PriorityAlgo

namespace Algorithm

/-- The convergence test shared by the selector tiers: moving up toward an
up call from below, or moving down toward a down call from above. -/
def isMovingTowardsCall (elevator : Elevator) (callFloor direction : Int) : Prop :=
  (elevator.status = .up ∧ direction = 1 ∧ elevator.currentFloor < callFloor) ∨
    (elevator.status = .down ∧ direction = -1 ∧ elevator.currentFloor > callFloor)

instance (elevator : Elevator) (callFloor direction : Int) :
    Decidable (isMovingTowardsCall elevator callFloor direction) := by
  unfold isMovingTowardsCall
  infer_instance

/-- One selection pass of selectBestElevator (algorithm.ts): scan the fleet,
skip 'off' elevators, and keep the first elevator satisfying the tier
condition whose distance to the call floor is strictly below the running
minimum.  minDistance starts at Infinity, modelled by the none accumulator
(every distance beats Infinity); once bestElevator is set, minDistance is
exactly its distance to the call floor. -/
def scanLoop (cond : Elevator → Prop) [DecidablePred cond] (callFloor : Int) :
    List Elevator → Option Elevator → Option Elevator
  | [], best => best
  | elevator :: rest, none =>
    if elevator.status = .off then scanLoop cond callFloor rest none
    else if cond elevator then scanLoop cond callFloor rest (some elevator)
    else scanLoop cond callFloor rest none
  | elevator :: rest, some b =>
    if elevator.status = .off then scanLoop cond callFloor rest (some b)
    else if cond elevator ∧
        |elevator.currentFloor - callFloor| < |b.currentFloor - callFloor| then
      scanLoop cond callFloor rest (some elevator)
    else scanLoop cond callFloor rest (some b)

/-- selectBestElevator (services/algorithm.ts): five selection passes, each
returning as soon as it finds a candidate; every pass skips 'off' elevators
and picks the first elevator with strictly minimal distance among those
satisfying the pass condition. -/
def selectBestElevator (elevators : List Elevator) (callFloor direction : Int) :
    Option Elevator :=
  match scanLoop
      (fun e => callFloor ∈ e.targetFloors ∧
        isMovingTowardsCall e callFloor direction) callFloor elevators none with
  | some b => some b
  | none =>
  match scanLoop (fun e => e.status = .idle) callFloor elevators none with
  | some b => some b
  | none =>
  match scanLoop (fun e => isMovingTowardsCall e callFloor direction)
      callFloor elevators none with
  | some b => some b
  | none =>
  match scanLoop
      (fun e => e.status = .idle ∨
        (e.status = .up ∧ e.currentFloor < callFloor) ∨
        (e.status = .down ∧ e.currentFloor > callFloor))
      callFloor elevators none with
  | some b => some b
  | none => scanLoop (fun _ => True) callFloor elevators none

end Algorithm

namespace ElevatorService

/-- The elevator records created by the Building constructor
(Array.from with length 16): count records starting at the given id, each
at floor 0 with an empty queue, 'idle' below activeElevators and 'off'
from there on. -/
def initElevators (activeElevators : Int) : Nat → Int → List Elevator
  | 0, _ => []
  | count + 1, id =>
    { id := id, currentFloor := 0, targetFloors := [],
      status := if id < activeElevators then .idle else .off } ::
      initElevators activeElevators count (id + 1)

/-- The Building constructor: stores the configuration and creates the
fixed array of 16 elevators. -/
def Building.create (numberOfFloors activeElevators : Int) : Building :=
  { config := { numberOfFloors := numberOfFloors,
                activeElevators := activeElevators },
    elevators := initElevators activeElevators 16 0 }

/-- forEach with an index argument, as used by updateConfig and
resetElevators: apply f to every elevator together with its array index. -/
def mapWithIndex (f : Int → Elevator → Elevator) : Int → List Elevator → List Elevator
  | _, [] => []
  | index, elevator :: rest => f index elevator :: mapWithIndex f (index + 1) rest

/-- Building.updateConfig (models/building.ts, targetFloors revision):
store the new configuration, set every elevator's status from its index,
and clear the queues of the elevators at or beyond activeElevators. -/
def updateConfig (building : Building) (numberOfFloors activeElevators : Int) :
    Building :=
  { config := { numberOfFloors := numberOfFloors,
                activeElevators := activeElevators },
    elevators := mapWithIndex
      (fun index elevator =>
        let withStatus := { elevator with
          status := if index < activeElevators then Status.idle else Status.off }
        if index ≥ activeElevators then { withStatus with targetFloors := [] }
        else withStatus)
      0 building.elevators }

/-- find-then-mutate on building.elevators: apply f to the first elevator
whose id matches (Array.prototype.find returns the first match; mutating
the returned object mutates that array slot). -/
def updateById (id : Int) (f : Elevator → Elevator) : List Elevator → List Elevator
  | [] => []
  | elevator :: rest =>
    if elevator.id = id then f elevator :: rest
    else elevator :: updateById id f rest

/-- updateStatus (elevatorService.ts): find the elevator by id and, unless
it is 'off', set its status to 'up' when the target is above the given
floor and 'down' otherwise. -/
def updateStatus (elevators : List Elevator) (id floor target : Int) :
    List Elevator :=
  updateById id
    (fun elevator =>
      if elevator.status ≠ .off then
        { elevator with status := if target > floor then .up else .down }
      else elevator)
    elevators

/-- pickup (elevatorService.ts): select the best elevator via
selectBestElevator (algorithm.ts); when one is found, push the call floor
onto its queue and run updateStatus on it, otherwise leave the fleet
unchanged. -/
def pickup (building : Building) (floor direction : Int) : Building :=
  match Algorithm.selectBestElevator building.elevators floor direction with
  | some bestElevator =>
    { building with
      elevators :=
        updateStatus
          (updateById bestElevator.id
            (fun e => { e with targetFloors := e.targetFloors ++ [floor] })
            building.elevators)
          bestElevator.id bestElevator.currentFloor floor }
  | none => building

/-- addTarget (elevatorService.ts): find the elevator by id; unless it is
'off' or already queues the target floor, push the floor and sort the queue
ascending (comparator a - b). -/
def addTarget (building : Building) (id targetFloor : Int) : Building :=
  { building with
    elevators := updateById id
      (fun elevator =>
        if elevator.status ≠ .off then
          if targetFloor ∉ elevator.targetFloors then
            { elevator with
              targetFloors :=
                (elevator.targetFloors ++ [targetFloor]).insertionSort (· ≤ ·) }
          else elevator
        else elevator)
      building.elevators }

/-- One elevator's share of step (elevatorService.ts): skip when the queue
is empty or the status is 'off'; otherwise move one floor toward the head
target, setting status 'up'/'down'; at the head target, shift the head off
the queue and become 'up' when targets remain and 'idle' otherwise. -/
def stepElevator (elevator : Elevator) : Elevator :=
  if elevator.targetFloors.length > 0 ∧ elevator.status ≠ .off then
    match elevator.targetFloors with
    | [] => elevator
    | targetFloor :: rest =>
      if elevator.currentFloor < targetFloor then
        { elevator with currentFloor := elevator.currentFloor + 1, status := .up }
      else if elevator.currentFloor > targetFloor then
        { elevator with currentFloor := elevator.currentFloor - 1, status := .down }
      else
        { elevator with
          targetFloors := rest
          status := if rest.length > 0 then Status.up else Status.idle }
  else elevator

/-- step (elevatorService.ts): advance every elevator independently. -/
def step (building : Building) : Building :=
  { building with elevators := building.elevators.map stepElevator }

/-- resetElevators (elevatorService.ts): reset every elevator to floor 0
with an empty queue, 'idle' below activeElevators and 'off' from there. -/
def resetElevators (elevators : List Elevator) (activeElevators : Int) :
    List Elevator :=
  mapWithIndex
    (fun index elevator =>
      if index < activeElevators then
        { elevator with currentFloor := 0, targetFloors := [], status := .idle }
      else
        { elevator with currentFloor := 0, targetFloors := [], status := .off })
    0 elevators

/-- configureBuilding (elevatorService.ts): updateConfig on the building,
then resetElevators. -/
def configureBuilding (building : Building) (numberOfFloors activeElevators : Int) :
    Building :=
  let updated := updateConfig building numberOfFloors activeElevators
  { updated with elevators := resetElevators updated.elevators activeElevators }

/-- getStatus (elevatorService.ts): the read-only snapshot of the fleet. -/
def getStatus (building : Building) : List Elevator :=
  building.elevators

/-- The operations the core exposes to the HTTP layer. -/
inductive Op where
  | configure (numberOfFloors activeElevators : Int)
  | pickupOp (floor direction : Int)
  | addTargetOp (id targetFloor : Int)
  | stepOp
  | getStatusOp
deriving DecidableEq, Repr

/-- Apply one operation to the building (getStatus reads only). -/
def applyOp (building : Building) : Op → Building
  | .configure numberOfFloors activeElevators =>
    configureBuilding building numberOfFloors activeElevators
  | .pickupOp floor direction => pickup building floor direction
  | .addTargetOp id targetFloor => addTarget building id targetFloor
  | .stepOp => step building
  | .getStatusOp => building

/-- Apply a sequence of operations from left to right. -/
def runOps (building : Building) (ops : List Op) : Building :=
  ops.foldl applyOp building

end ElevatorService

namespace PsoService

/-- The loop inside getClosestElevator (psoService.ts): keep the first
elevator whose distance to the call floor is strictly below the running
minimum (Infinity at the start, modelled by the none accumulator). -/
def getClosestLoop (callFloor : Int) :
    List Elevator → Option Elevator → Option Elevator
  | [], best => best
  | elevator :: rest, none => getClosestLoop callFloor rest (some elevator)
  | elevator :: rest, some b =>
    if |elevator.currentFloor - callFloor| < |b.currentFloor - callFloor| then
      getClosestLoop callFloor rest (some elevator)
    else getClosestLoop callFloor rest (some b)

/-- getClosestElevator (psoService.ts): the closest of the given elevators
to the call floor, first one wins ties. -/
def getClosestElevator (suitableElevators : List Elevator) (callFloor : Int) :
    Option Elevator :=
  getClosestLoop callFloor suitableElevators none

/-- getBestElevatorBasedOnTargetDifference (psoService.ts): sort the
candidates ascending by queue length (comparator
a.targetFloors.length - b.targetFloors.length), then return the second
element when the first's queue is longer by more than 2 (dead branch under
an ascending sort) and the first element otherwise. -/
def getBestElevatorBasedOnTargetDifference (suitableElevators : List Elevator) :
    Option Elevator :=
  match suitableElevators.insertionSort
      (fun a b => a.targetFloors.length ≤ b.targetFloors.length) with
  | [] => none
  | [current] => some current
  | current :: next :: _ =>
    if (current.targetFloors.length : Int) - (next.targetFloors.length : Int) > 2
    then some next
    else some current

/-- Priority 1 of selectBestElevator (psoService.ts): not 'off', already
queueing the call floor, and moving toward the call in its direction
(the loop that pushes onto suitableElevators). -/
def tier1Candidates (elevators : List Elevator) (callFloor direction : Int) :
    List Elevator :=
  elevators.filter (fun e =>
    decide (e.status ≠ .off ∧ callFloor ∈ e.targetFloors ∧
      Algorithm.isMovingTowardsCall e callFloor direction))

/-- Priority 2 filter of selectBestElevator (psoService.ts): every elevator
whose queue contains the call floor, with no status filter. -/
def targetingCandidates (elevators : List Elevator) (callFloor : Int) :
    List Elevator :=
  elevators.filter (fun e => decide (callFloor ∈ e.targetFloors))

/-- selectBestElevator (psoService.ts): the six-tier dispatch selector. -/
def selectBestElevator (elevators : List Elevator) (callFloor direction : Int) :
    Option Elevator :=
  let suitable1 := tier1Candidates elevators callFloor direction
  if suitable1.length > 0 then getBestElevatorBasedOnTargetDifference suitable1
  else
    let suitable2 := targetingCandidates elevators callFloor
    if suitable2.length > 1 then getClosestElevator suitable2 callFloor
    else
      let suitable3 := elevators.filter (fun e => decide (e.status = .idle))
      if suitable3.length > 0 then getClosestElevator suitable3 callFloor
      else
        let suitable4 := elevators.filter (fun e =>
          decide (e.status ≠ .off ∧
            Algorithm.isMovingTowardsCall e callFloor direction))
        if suitable4.length > 0 then
          getBestElevatorBasedOnTargetDifference suitable4
        else
          let suitable5 := elevators.filter (fun e =>
            decide (e.status ≠ .off ∧
              (e.status = .idle ∨
                (e.status = .up ∧ e.currentFloor < callFloor) ∨
                (e.status = .down ∧ e.currentFloor > callFloor))))
          if suitable5.length > 0 then getClosestElevator suitable5 callFloor
          else
            getClosestElevator
              (elevators.filter (fun e => decide (e.status ≠ .off))) callFloor

end PsoService

namespace ElevatorService

/-- The fleet invariant, per elevator at array index i: the id equals the
index (ids 0..15 are assigned once by the constructor and never change),
the status is Off exactly when the id is at or beyond activeElevators, an
Off elevator has an empty queue at floor 0, and a non-Off elevator with an
empty queue is Idle. -/
def ElevInv (activeElevators i : Int) (e : Elevator) : Prop :=
  e.id = i ∧
  (e.status = .off ↔ i ≥ activeElevators) ∧
  (e.status = .off → e.targetFloors = [] ∧ e.currentFloor = 0) ∧
  (e.status ≠ .off → e.targetFloors = [] → e.status = .idle)

instance (activeElevators i : Int) (e : Elevator) :
    Decidable (ElevInv activeElevators i e) := by
  unfold ElevInv
  infer_instance

/-- The fleet invariant over the elevator array starting at index i. -/
def FleetInvFrom (activeElevators : Int) : Int → List Elevator → Prop
  | _, [] => True
  | i, e :: rest =>
    ElevInv activeElevators i e ∧ FleetInvFrom activeElevators (i + 1) rest

instance FleetInvFromDec (activeElevators : Int) :
    (i : Int) → (l : List Elevator) → Decidable (FleetInvFrom activeElevators i l)
  | _, [] => .isTrue trivial
  | i, e :: rest =>
    haveI := FleetInvFromDec activeElevators (i + 1) rest
    inferInstanceAs (Decidable (ElevInv activeElevators i e ∧
      FleetInvFrom activeElevators (i + 1) rest))

/-- The fleet invariant of a building (claim C8's invariant, plus the
id-equals-index fact from the data model). -/
def FleetInv (building : Building) : Prop :=
  FleetInvFrom building.config.activeElevators 0 building.elevators

instance (building : Building) : Decidable (FleetInv building) := by
  unfold FleetInv
  infer_instance

/-- Floor-range condition on one elevator: the current floor and every
queued target lie in 0 .. numberOfFloors - 1. -/
def ElevRange (numberOfFloors : Int) (e : Elevator) : Prop :=
  0 ≤ e.currentFloor ∧ e.currentFloor ≤ numberOfFloors - 1 ∧
    ∀ t ∈ e.targetFloors, 0 ≤ t ∧ t ≤ numberOfFloors - 1

instance (numberOfFloors : Int) (e : Elevator) :
    Decidable (ElevRange numberOfFloors e) := by
  unfold ElevRange
  infer_instance

/-- The range invariant of a building: at least one floor, and every
elevator's position and targets inside the configured floor range. -/
def RangeInv (building : Building) : Prop :=
  1 ≤ building.config.numberOfFloors ∧
    ∀ e ∈ building.elevators, ElevRange building.config.numberOfFloors e

instance (building : Building) : Decidable (RangeInv building) := by
  unfold RangeInv
  infer_instance

/-- In-range side condition on one operation: pickup and addTarget floors
lie inside the current floor range and a reconfiguration keeps at least one
floor (the core itself never validates these inputs). -/
def OpOk (building : Building) : Op → Prop
  | .configure numberOfFloors _ => 1 ≤ numberOfFloors
  | .pickupOp floor _ =>
    0 ≤ floor ∧ floor ≤ building.config.numberOfFloors - 1
  | .addTargetOp _ targetFloor =>
    0 ≤ targetFloor ∧ targetFloor ≤ building.config.numberOfFloors - 1
  | .stepOp => True
  | .getStatusOp => True

instance (building : Building) (op : Op) : Decidable (OpOk building op) := by
  cases op <;> (unfold OpOk; infer_instance)

/-- In-range side condition along a whole operation sequence: each
operation's floor inputs are in range for the building state it is applied
to. -/
def OpsOk (building : Building) : List Op → Prop
  | [] => True
  | op :: rest => OpOk building op ∧ OpsOk (applyOp building op) rest

instance OpsOkDec (building : Building) :
    (ops : List Op) → Decidable (OpsOk building ops)
  | [] => .isTrue trivial
  | op :: rest =>
    haveI := OpsOkDec (applyOp building op) rest
    inferInstanceAs (Decidable (OpOk building op ∧
      OpsOk (applyOp building op) rest))

end ElevatorService

namespace PriorityAlgo

theorem sortRequests_perm (currentFloor : Int) (direction : Status)
    (targetFloors : List Int) :
    (sortRequests currentFloor direction targetFloors).Perm targetFloors := by
  cases direction <;> exact List.perm_insertionSort _ _

end PriorityAlgo

/-- C6: Reorder (sortRequests) always returns a permutation of its input,
for every current floor, every direction (Up, Down, Idle or Off) and every
list of target floors: the same multiset of floors, nothing dropped or
added. -/
theorem C6_reorder_is_permutation (currentFloor : Int) (direction : Status)
    (targetFloors : List Int) :
    (PriorityAlgo.sortRequests currentFloor direction targetFloors).Perm
      targetFloors :=
  PriorityAlgo.sortRequests_perm currentFloor direction targetFloors

namespace PriorityAlgo

theorem upLe_iff (c a b : Int) :
    upLe c a b = true ↔
      ((c ≤ a ∧ c ≤ b ∧ a ≤ b) ∨ (c ≤ a ∧ b < c) ∨
        (a < c ∧ b < c ∧ a ≤ b)) := by
  unfold upLe
  split_ifs <;> simp <;> omega

theorem upLe_total (c a b : Int) : upLe c a b = true ∨ upLe c b a = true := by
  rw [upLe_iff, upLe_iff]; omega

theorem upLe_trans (c : Int) : ∀ a b d : Int,
    upLe c a b = true → upLe c b d = true → upLe c a d = true := by
  intro a b d h1 h2
  rw [upLe_iff] at h1 h2 ⊢
  omega

theorem upLe_antisymm (c : Int) : ∀ a b : Int,
    upLe c a b = true → upLe c b a = true → a = b := by
  intro a b h1 h2
  rw [upLe_iff] at h1 h2
  omega

theorem sortRequests_up_eq_spec (c : Int) (ts : List Int) :
    sortRequests c .up ts = reorderUpSpec c ts := by
  have decfl : ∀ a : Int, decide (a < c) = !decide (c ≤ a) := by
    intro a
    rw [← decide_not]
    exact decide_eq_decide.mpr (by omega)
  -- both sides are permutations of ts
  have pL : (sortRequests c .up ts).Perm ts := sortRequests_perm c .up ts
  have pA : ((ts.filter (fun a => decide (c ≤ a))).insertionSort
      (· ≤ ·)).Perm (ts.filter (fun a => decide (c ≤ a))) :=
    List.perm_insertionSort _ _
  have pB : ((ts.filter (fun a => decide (a < c))).insertionSort
      (· ≤ ·)).Perm (ts.filter (fun a => decide (a < c))) :=
    List.perm_insertionSort _ _
  have pfilters :
      (ts.filter (fun a => decide (c ≤ a)) ++
        ts.filter (fun a => decide (a < c))).Perm ts := by
    have := List.filter_append_perm (fun a => decide (c ≤ a)) ts
    have hcongr : ts.filter (fun a => decide (a < c)) =
        ts.filter (fun a => !decide (c ≤ a)) := by
      apply List.filter_congr
      intro x _
      exact decfl x
    rw [hcongr]
    exact this
  have pR : (reorderUpSpec c ts).Perm ts := by
    unfold reorderUpSpec
    exact (List.Perm.append pA pB).trans pfilters
  -- both sides are sorted with respect to the up comparator
  have hsL : List.Sorted (fun a b => upLe c a b = true) (sortRequests c .up ts) := by
    show List.Pairwise _ _
    exact @List.sorted_insertionSort _ _ _ ⟨upLe_total c⟩ ⟨upLe_trans c⟩ ts
  have memA : ∀ x ∈ (ts.filter (fun a => decide (c ≤ a))).insertionSort
      (· ≤ ·), c ≤ x := by
    intro x hx
    have : x ∈ ts.filter (fun a => decide (c ≤ a)) :=
      ((List.perm_insertionSort _ _).mem_iff).mp hx
    exact of_decide_eq_true (List.mem_filter.mp this).2
  have memB : ∀ x ∈ (ts.filter (fun a => decide (a < c))).insertionSort
      (· ≤ ·), x < c := by
    intro x hx
    have : x ∈ ts.filter (fun a => decide (a < c)) :=
      ((List.perm_insertionSort _ _).mem_iff).mp hx
    exact of_decide_eq_true (List.mem_filter.mp this).2
  have hsR : List.Sorted (fun a b => upLe c a b = true) (reorderUpSpec c ts) := by
    unfold reorderUpSpec
    refine List.pairwise_append.mpr ⟨?_, ?_, ?_⟩
    · have hA : List.Sorted (· ≤ ·)
          ((ts.filter (fun a => decide (c ≤ a))).insertionSort (· ≤ ·)) :=
        List.sorted_insertionSort _ _
      exact hA.imp_of_mem (fun ha hb hle =>
        (upLe_iff c _ _).mpr (Or.inl ⟨memA _ ha, memA _ hb, hle⟩))
    · have hB : List.Sorted (· ≤ ·)
          ((ts.filter (fun a => decide (a < c))).insertionSort (· ≤ ·)) :=
        List.sorted_insertionSort _ _
      exact hB.imp_of_mem (fun ha hb hle =>
        (upLe_iff c _ _).mpr (Or.inr (Or.inr ⟨memB _ ha, memB _ hb, hle⟩)))
    · intro a ha b hb
      exact (upLe_iff c a b).mpr (Or.inr (Or.inl ⟨memA a ha, memB b hb⟩))
  exact @List.eq_of_perm_of_sorted _ _ ⟨upLe_antisymm c⟩ _ _
    (pL.trans pR.symm) hsL hsR

end PriorityAlgo

namespace ElevatorService

theorem stepElevator_of_lt (e : Elevator) (t : Int) (rest : List Int)
    (hoff : e.status ≠ .off) (ht : e.targetFloors = t :: rest)
    (hlt : e.currentFloor < t) :
    stepElevator e = { e with currentFloor := e.currentFloor + 1, status := .up } := by
  unfold stepElevator
  rw [ht]
  simp [hoff, hlt]

theorem stepElevator_of_gt (e : Elevator) (t : Int) (rest : List Int)
    (hoff : e.status ≠ .off) (ht : e.targetFloors = t :: rest)
    (hgt : e.currentFloor > t) :
    stepElevator e = { e with currentFloor := e.currentFloor - 1, status := .down } := by
  have hnlt : ¬ e.currentFloor < t := by omega
  unfold stepElevator
  rw [ht]
  simp [hoff, hnlt, hgt]

theorem stepElevator_of_eq (e : Elevator) (t : Int) (rest : List Int)
    (hoff : e.status ≠ .off) (ht : e.targetFloors = t :: rest)
    (heq : e.currentFloor = t) :
    stepElevator e = { e with
      targetFloors := rest
      status := if rest.length > 0 then Status.up else Status.idle } := by
  have hnlt : ¬ e.currentFloor < t := by omega
  have hngt : ¬ e.currentFloor > t := by omega
  unfold stepElevator
  rw [ht]
  simp [hoff, hnlt, hngt]

end ElevatorService

/-- C1 counterexample: an elevator at floor 0 with single target 7 and a
non-Off status does reach floor 7 after 7 Step() calls, but immediately
after the 7th step it is still 'up' with queue [7], not Idle with an empty
queue as claimed: the arrival purge happens only on the following step. -/
theorem C1_counterexample :
    (ElevatorService.stepElevator^[7]
        { id := 0, currentFloor := 0, targetFloors := [7],
          status := Status.idle }).currentFloor = 7 ∧
    ¬ ((ElevatorService.stepElevator^[7]
        { id := 0, currentFloor := 0, targetFloors := [7],
          status := Status.idle }).status = Status.idle ∧
      (ElevatorService.stepElevator^[7]
        { id := 0, currentFloor := 0, targetFloors := [7],
          status := Status.idle }).targetFloors = []) := by
  decide

/-- C1 amended: an elevator at floor 0 with single target 7 and a non-Off
status reaches floor 7 after exactly 7 Step() calls, but after the 7th step
its status is Up and its queue still holds [7]; only the 8th step removes
the target and makes it Idle with an empty queue. -/
theorem C1_step_convergence (e : Elevator) (h0 : e.currentFloor = 0)
    (h7 : e.targetFloors = [7]) (hoff : e.status ≠ Status.off) :
    (ElevatorService.stepElevator^[7] e).currentFloor = 7 ∧
    (ElevatorService.stepElevator^[7] e).status = Status.up ∧
    (ElevatorService.stepElevator^[7] e).targetFloors = [7] ∧
    ElevatorService.stepElevator^[8] e =
      { id := e.id, currentFloor := 7, targetFloors := [],
        status := Status.idle } := by
  obtain ⟨id, cf, tf, s⟩ := e
  simp only at h0 h7 hoff
  subst h0 h7
  have e1 : ElevatorService.stepElevator ⟨id, 0, [7], s⟩ = ⟨id, 1, [7], .up⟩ := by
    rw [ElevatorService.stepElevator_of_lt _ 7 [] hoff rfl (by norm_num)]
    simp
  have e2 : ElevatorService.stepElevator ⟨id, 1, [7], .up⟩ = ⟨id, 2, [7], .up⟩ := by
    rw [ElevatorService.stepElevator_of_lt _ 7 [] (by simp) rfl (by norm_num)]
    simp
  have e3 : ElevatorService.stepElevator ⟨id, 2, [7], .up⟩ = ⟨id, 3, [7], .up⟩ := by
    rw [ElevatorService.stepElevator_of_lt _ 7 [] (by simp) rfl (by norm_num)]
    simp
  have e4 : ElevatorService.stepElevator ⟨id, 3, [7], .up⟩ = ⟨id, 4, [7], .up⟩ := by
    rw [ElevatorService.stepElevator_of_lt _ 7 [] (by simp) rfl (by norm_num)]
    simp
  have e5 : ElevatorService.stepElevator ⟨id, 4, [7], .up⟩ = ⟨id, 5, [7], .up⟩ := by
    rw [ElevatorService.stepElevator_of_lt _ 7 [] (by simp) rfl (by norm_num)]
    simp
  have e6 : ElevatorService.stepElevator ⟨id, 5, [7], .up⟩ = ⟨id, 6, [7], .up⟩ := by
    rw [ElevatorService.stepElevator_of_lt _ 7 [] (by simp) rfl (by norm_num)]
    simp
  have e7 : ElevatorService.stepElevator ⟨id, 6, [7], .up⟩ = ⟨id, 7, [7], .up⟩ := by
    rw [ElevatorService.stepElevator_of_lt _ 7 [] (by simp) rfl (by norm_num)]
    simp
  have e8 : ElevatorService.stepElevator ⟨id, 7, [7], .up⟩ = ⟨id, 7, [], .idle⟩ := by
    rw [ElevatorService.stepElevator_of_eq _ 7 [] (by simp) rfl rfl]
    simp
  have h7steps : ElevatorService.stepElevator^[7] ⟨id, 0, [7], s⟩ = ⟨id, 7, [7], .up⟩ := by
    rw [show (7 : ℕ) = 6 + 1 from rfl, Function.iterate_succ_apply, e1,
      show (6 : ℕ) = 5 + 1 from rfl, Function.iterate_succ_apply, e2,
      show (5 : ℕ) = 4 + 1 from rfl, Function.iterate_succ_apply, e3,
      show (4 : ℕ) = 3 + 1 from rfl, Function.iterate_succ_apply, e4,
      show (3 : ℕ) = 2 + 1 from rfl, Function.iterate_succ_apply, e5,
      show (2 : ℕ) = 1 + 1 from rfl, Function.iterate_succ_apply, e6,
      show (1 : ℕ) = 0 + 1 from rfl, Function.iterate_succ_apply, e7,
      Function.iterate_zero_apply]
  have h8steps : ElevatorService.stepElevator^[8] ⟨id, 0, [7], s⟩ = ⟨id, 7, [], .idle⟩ := by
    rw [show (8 : ℕ) = 7 + 1 from rfl, Function.iterate_succ_apply']
    rw [h7steps, e8]
  rw [h7steps, h8steps]
  exact ⟨rfl, rfl, rfl, rfl⟩

/-- C1 witness: the amended statement evaluated at the concrete elevator
record with id 0 and status Idle. -/
theorem C1_witness :
    (ElevatorService.stepElevator^[7]
        { id := 0, currentFloor := 0, targetFloors := [7],
          status := Status.idle }).currentFloor = 7 ∧
    (ElevatorService.stepElevator^[7]
        { id := 0, currentFloor := 0, targetFloors := [7],
          status := Status.idle }).status = Status.up ∧
    (ElevatorService.stepElevator^[7]
        { id := 0, currentFloor := 0, targetFloors := [7],
          status := Status.idle }).targetFloors = [7] ∧
    ElevatorService.stepElevator^[8]
        { id := 0, currentFloor := 0, targetFloors := [7],
          status := Status.idle } =
      { id := 0, currentFloor := 7, targetFloors := [], status := Status.idle } :=
  C1_step_convergence
    { id := 0, currentFloor := 0, targetFloors := [7], status := Status.idle }
    rfl rfl (by decide)

/-- C2 counterexample: an elevator moving up at floor 4 with queue [4,4,9]
keeps the duplicate 4 after the arrival step (only the head is shifted),
and an elevator at floor 5 with queue [5,3] ends the arrival step with
status Up although the new head target 3 is below floor 5. -/
theorem C2_counterexample :
    (ElevatorService.stepElevator
        { id := 0, currentFloor := 4, targetFloors := [4, 4, 9],
          status := Status.up }).targetFloors = [4, 9] ∧
    ([4, 9] : List Int) ≠ [9] ∧
    (ElevatorService.stepElevator
        { id := 1, currentFloor := 5, targetFloors := [5, 3],
          status := Status.up }).status = Status.up ∧
    Status.up ≠ Status.down := by
  decide

/-- C2 amended: when a stepped elevator (non-Off, non-empty queue) already
sits at the head target, Step removes only the head entry (duplicates of
the current floor deeper in the queue stay), and sets status to Idle when
the rest is empty and to Up otherwise, regardless of where the new head
target lies. -/
theorem C2_arrival_shift (e : Elevator) (t : Int) (rest : List Int)
    (hoff : e.status ≠ Status.off) (ht : e.targetFloors = t :: rest)
    (heq : e.currentFloor = t) :
    ElevatorService.stepElevator e = { e with
      targetFloors := rest
      status := if rest.length > 0 then Status.up else Status.idle } :=
  ElevatorService.stepElevator_of_eq e t rest hoff ht heq

/-- C2 witness: the amended statement evaluated at the elevator moving up
at floor 4 with queue [4,4,9]. -/
theorem C2_witness :
    ElevatorService.stepElevator
        { id := 0, currentFloor := 4, targetFloors := [4, 4, 9],
          status := Status.up } =
      { id := 0, currentFloor := 4, targetFloors := [4, 9],
        status := Status.up } := by
  have h := C2_arrival_shift
    { id := 0, currentFloor := 4, targetFloors := [4, 4, 9], status := Status.up }
    4 [4, 9] (by decide) rfl rfl
  simpa using h

namespace Algorithm

theorem scanLoop_some (cond : Elevator → Prop) [DecidablePred cond]
    (callFloor : Int) :
    ∀ (l : List Elevator) (b : Elevator),
      ∃ e, scanLoop cond callFloor l (some b) = some e := by
  intro l
  induction l with
  | nil => intro b; exact ⟨b, rfl⟩
  | cons elevator rest ih =>
    intro b
    simp only [scanLoop]
    split_ifs with h1 h2
    · exact ih b
    · exact ih elevator
    · exact ih b

theorem scanLoop_mem (cond : Elevator → Prop) [DecidablePred cond]
    (callFloor : Int) :
    ∀ (l : List Elevator) (acc : Option Elevator) (e : Elevator),
      scanLoop cond callFloor l acc = some e →
        acc = some e ∨ (e ∈ l ∧ cond e ∧ e.status ≠ .off) := by
  intro l
  induction l with
  | nil => intro acc e h; exact Or.inl h
  | cons elevator rest ih =>
    intro acc e h
    cases acc with
    | none =>
      simp only [scanLoop] at h
      split_ifs at h with h1 h2
      · rcases ih _ _ h with h' | h'
        · cases h'
        · exact Or.inr ⟨List.mem_cons_of_mem _ h'.1, h'.2⟩
      · rcases ih _ _ h with h' | h'
        · have he : elevator = e := by injection h'
          exact Or.inr ⟨he ▸ List.mem_cons_self _ _, he ▸ h2, he ▸ h1⟩
        · exact Or.inr ⟨List.mem_cons_of_mem _ h'.1, h'.2⟩
      · rcases ih _ _ h with h' | h'
        · cases h'
        · exact Or.inr ⟨List.mem_cons_of_mem _ h'.1, h'.2⟩
    | some b =>
      simp only [scanLoop] at h
      split_ifs at h with h1 h2
      · rcases ih _ _ h with h' | h'
        · exact Or.inl h'
        · exact Or.inr ⟨List.mem_cons_of_mem _ h'.1, h'.2⟩
      · rcases ih _ _ h with h' | h'
        · have he : elevator = e := by injection h'
          exact Or.inr ⟨he ▸ List.mem_cons_self _ _, he ▸ h2.1, he ▸ h1⟩
        · exact Or.inr ⟨List.mem_cons_of_mem _ h'.1, h'.2⟩
      · rcases ih _ _ h with h' | h'
        · exact Or.inl h'
        · exact Or.inr ⟨List.mem_cons_of_mem _ h'.1, h'.2⟩

theorem scanLoop_none_iff (cond : Elevator → Prop) [DecidablePred cond]
    (callFloor : Int) :
    ∀ l : List Elevator,
      scanLoop cond callFloor l none = none ↔
        ∀ e ∈ l, e.status = .off ∨ ¬ cond e := by
  intro l
  induction l with
  | nil => simp [scanLoop]
  | cons elevator rest ih =>
    simp only [scanLoop]
    split_ifs with h1 h2
    · constructor
      · intro h e he
        rcases List.mem_cons.mp he with rfl | he'
        · exact Or.inl h1
        · exact (ih.mp h) e he'
      · intro h
        exact ih.mpr (fun e he => h e (List.mem_cons_of_mem _ he))
    · constructor
      · intro h
        obtain ⟨e', he'⟩ := scanLoop_some cond callFloor rest elevator
        rw [he'] at h
        cases h
      · intro h
        rcases h elevator (List.mem_cons_self _ _) with h' | h'
        · exact absurd h' h1
        · exact absurd h2 h'
    · constructor
      · intro h e he
        rcases List.mem_cons.mp he with rfl | he'
        · exact Or.inr h2
        · exact (ih.mp h) e he'
      · intro h
        exact ih.mpr (fun e he => h e (List.mem_cons_of_mem _ he))

end Algorithm

/-- C3: the dispatch selector of algorithm.ts is total up to an all-Off
fleet: it returns none exactly when every elevator is Off (so with at least
one non-Off elevator it returns some elevator), and an elevator it returns
is never Off. -/
theorem C3_selector_totality (elevators : List Elevator)
    (callFloor direction : Int) :
    (Algorithm.selectBestElevator elevators callFloor direction = none ↔
      ∀ e ∈ elevators, e.status = Status.off) ∧
    ∀ e, Algorithm.selectBestElevator elevators callFloor direction = some e →
      e.status ≠ Status.off := by
  constructor
  · constructor
    · intro hnone
      unfold Algorithm.selectBestElevator at hnone
      split at hnone
      · cases hnone
      · split at hnone
        · cases hnone
        · split at hnone
          · cases hnone
          · split at hnone
            · cases hnone
            · intro e he
              rcases (Algorithm.scanLoop_none_iff _ callFloor elevators).mp
                  hnone e he with h' | h'
              · exact h'
              · exact absurd trivial h'
    · intro hall
      have all_none : ∀ (cond : Elevator → Prop) (_ : DecidablePred cond),
          Algorithm.scanLoop cond callFloor elevators none = none :=
        fun cond inst =>
          (Algorithm.scanLoop_none_iff cond callFloor elevators).mpr
            (fun e he => Or.inl (hall e he))
      unfold Algorithm.selectBestElevator
      rw [all_none _ _, all_none _ _, all_none _ _, all_none _ _, all_none _ _]
  · intro e h
    unfold Algorithm.selectBestElevator at h
    split at h
    · rename_i b hb
      have hb' : b = e := by injection h
      rcases Algorithm.scanLoop_mem _ callFloor elevators none b hb with h' | h'
      · cases h'
      · exact hb' ▸ h'.2.2
    · split at h
      · rename_i b hb
        have hb' : b = e := by injection h
        rcases Algorithm.scanLoop_mem _ callFloor elevators none b hb with h' | h'
        · cases h'
        · exact hb' ▸ h'.2.2
      · split at h
        · rename_i b hb
          have hb' : b = e := by injection h
          rcases Algorithm.scanLoop_mem _ callFloor elevators none b hb with h' | h'
          · cases h'
          · exact hb' ▸ h'.2.2
        · split at h
          · rename_i b hb
            have hb' : b = e := by injection h
            rcases Algorithm.scanLoop_mem _ callFloor elevators none b hb
                with h' | h'
            · cases h'
            · exact hb' ▸ h'.2.2
          · rcases Algorithm.scanLoop_mem _ callFloor elevators none e h
                with h' | h'
            · cases h'
            · exact h'.2.2

/-- C3 witness: the totality statement evaluated on a two-elevator fleet
with one Off and one Idle elevator, call floor 2, direction up. -/
theorem C3_witness :
    ((Algorithm.selectBestElevator
        [{ id := 0, currentFloor := 0, targetFloors := [], status := Status.off },
         { id := 1, currentFloor := 3, targetFloors := [], status := Status.idle }]
        2 1 = none ↔
      ∀ e ∈ [({ id := 0, currentFloor := 0, targetFloors := [],
                status := Status.off } : Elevator),
             { id := 1, currentFloor := 3, targetFloors := [],
               status := Status.idle }], e.status = Status.off) ∧
    ∀ e, Algorithm.selectBestElevator
        [{ id := 0, currentFloor := 0, targetFloors := [], status := Status.off },
         { id := 1, currentFloor := 3, targetFloors := [], status := Status.idle }]
        2 1 = some e → e.status ≠ Status.off) :=
  C3_selector_totality _ 2 1

/-- C7: Reorder with direction Up returns the floors at or above the current
floor sorted ascending, followed by the floors below the current floor
sorted ascending; in particular for current floor 5 and targets [3,8,1,9]
the result is [8,9,1,3]. -/
theorem C7_reorder_up_scan_order :
    (∀ (currentFloor : Int) (targets : List Int),
      PriorityAlgo.sortRequests currentFloor .up targets =
        PriorityAlgo.reorderUpSpec currentFloor targets) ∧
    PriorityAlgo.sortRequests 5 .up [3, 8, 1, 9] = [8, 9, 1, 3] :=
  ⟨PriorityAlgo.sortRequests_up_eq_spec, by decide⟩

namespace PsoService

theorem getClosestLoop_spec (callFloor : Int) :
    ∀ (l : List Elevator) (b : Elevator),
      ∃ e, getClosestLoop callFloor l (some b) = some e ∧
        (e = b ∨ e ∈ l) ∧
        |e.currentFloor - callFloor| ≤ |b.currentFloor - callFloor| ∧
        ∀ x ∈ l, |e.currentFloor - callFloor| ≤ |x.currentFloor - callFloor| := by
  intro l
  induction l with
  | nil =>
    intro b
    exact ⟨b, rfl, Or.inl rfl, le_refl _, by simp⟩
  | cons elevator rest ih =>
    intro b
    simp only [getClosestLoop]
    by_cases h : |elevator.currentFloor - callFloor| < |b.currentFloor - callFloor|
    · rw [if_pos h]
      obtain ⟨e, he, hmem, hle, hall⟩ := ih elevator
      refine ⟨e, he, ?_, le_trans hle (le_of_lt h), ?_⟩
      · rcases hmem with rfl | hmem
        · exact Or.inr (List.mem_cons_self _ _)
        · exact Or.inr (List.mem_cons_of_mem _ hmem)
      · intro x hx
        rcases List.mem_cons.mp hx with rfl | hx'
        · exact hle
        · exact hall x hx'
    · rw [if_neg h]
      obtain ⟨e, he, hmem, hle, hall⟩ := ih b
      refine ⟨e, he, ?_, hle, ?_⟩
      · rcases hmem with rfl | hmem
        · exact Or.inl rfl
        · exact Or.inr (List.mem_cons_of_mem _ hmem)
      · intro x hx
        rcases List.mem_cons.mp hx with rfl | hx'
        · exact le_trans hle (le_of_not_lt h)
        · exact hall x hx'

theorem getClosestElevator_spec (l : List Elevator) (callFloor : Int)
    (h : l ≠ []) :
    ∃ e, getClosestElevator l callFloor = some e ∧ e ∈ l ∧
      ∀ x ∈ l, |e.currentFloor - callFloor| ≤ |x.currentFloor - callFloor| := by
  cases l with
  | nil => exact absurd rfl h
  | cons a rest =>
    obtain ⟨e, he, hmem, hle, hall⟩ := getClosestLoop_spec callFloor rest a
    refine ⟨e, he, ?_, ?_⟩
    · rcases hmem with rfl | hmem
      · exact List.mem_cons_self _ _
      · exact List.mem_cons_of_mem _ hmem
    · intro x hx
      rcases List.mem_cons.mp hx with rfl | hx'
      · exact hle
      · exact hall x hx'

theorem getBestElevatorBasedOnTargetDifference_spec (l : List Elevator)
    (h : l ≠ []) :
    ∃ e, getBestElevatorBasedOnTargetDifference l = some e ∧ e ∈ l ∧
      ∀ x ∈ l, e.targetFloors.length ≤ x.targetFloors.length := by
  have hsorted : List.Sorted
      (fun a b : Elevator => a.targetFloors.length ≤ b.targetFloors.length)
      (l.insertionSort
        (fun a b => a.targetFloors.length ≤ b.targetFloors.length)) :=
    @List.sorted_insertionSort _
      (fun a b : Elevator => a.targetFloors.length ≤ b.targetFloors.length) _
      ⟨fun a b => Nat.le_total _ _⟩
      ⟨fun _ _ _ hab hbc => le_trans hab hbc⟩ l
  have hperm := List.perm_insertionSort
    (fun a b : Elevator => a.targetFloors.length ≤ b.targetFloors.length) l
  unfold getBestElevatorBasedOnTargetDifference
  cases hs : l.insertionSort
      (fun a b => a.targetFloors.length ≤ b.targetFloors.length) with
  | nil =>
    rw [hs] at hperm
    exact absurd (hperm.symm.eq_nil) h
  | cons x xs =>
    rw [hs] at hsorted hperm
    cases xs with
    | nil =>
      refine ⟨x, rfl, hperm.mem_iff.mp (List.mem_cons_self _ _), ?_⟩
      intro z hz
      have : z ∈ [x] := hperm.mem_iff.mpr hz
      rcases List.mem_singleton.mp this with rfl
      exact le_refl _
    | cons y ys =>
      have hxy : x.targetFloors.length ≤ y.targetFloors.length :=
        (List.pairwise_cons.mp hsorted).1 y (List.mem_cons_self _ _)
      have hcond : ¬ ((x.targetFloors.length : Int) -
          (y.targetFloors.length : Int) > 2) := by
        omega
      dsimp only
      rw [if_neg hcond]
      refine ⟨x, rfl, hperm.mem_iff.mp (List.mem_cons_self _ _), ?_⟩
      intro z hz
      have hz' : z ∈ x :: y :: ys := hperm.mem_iff.mpr hz
      rcases List.mem_cons.mp hz' with rfl | hz''
      · exact le_refl _
      · exact (List.pairwise_cons.mp hsorted).1 z hz''

end PsoService

/-- C4: whenever the tier-1 candidate set of the six-tier dispatch selector
(psoService.ts) is non-empty - elevators not Off whose queue contains the
call floor and which converge on it in the call direction - the selector
returns a tier-1 candidate with the minimum number of pending targets. -/
theorem C4_tier1_least_loaded (elevators : List Elevator)
    (callFloor direction : Int)
    (h : PsoService.tier1Candidates elevators callFloor direction ≠ []) :
    ∃ e, PsoService.selectBestElevator elevators callFloor direction = some e ∧
      e ∈ PsoService.tier1Candidates elevators callFloor direction ∧
      ∀ x ∈ PsoService.tier1Candidates elevators callFloor direction,
        e.targetFloors.length ≤ x.targetFloors.length := by
  obtain ⟨e, he, hmem, hmin⟩ :=
    PsoService.getBestElevatorBasedOnTargetDifference_spec _ h
  refine ⟨e, ?_, hmem, hmin⟩
  unfold PsoService.selectBestElevator
  rw [if_pos (List.length_pos.mpr h)]
  exact he

/-- C4 witness: one elevator moving up at floor 2 with queue [5], call at
floor 5 going up; the tier-1 set is that elevator and it is selected. -/
theorem C4_witness :
    ∃ e, PsoService.selectBestElevator
        [{ id := 0, currentFloor := 2, targetFloors := [5],
           status := Status.up }] 5 1 = some e ∧
      e ∈ PsoService.tier1Candidates
        [{ id := 0, currentFloor := 2, targetFloors := [5],
           status := Status.up }] 5 1 ∧
      ∀ x ∈ PsoService.tier1Candidates
        [{ id := 0, currentFloor := 2, targetFloors := [5],
           status := Status.up }] 5 1,
        e.targetFloors.length ≤ x.targetFloors.length :=
  C4_tier1_least_loaded _ 5 1 (by decide)

/-- C5 counterexample: call at floor 5 going up; elevator 0 (status Down at
floor 7, queue [5,3]) is the only elevator queueing floor 5 and is not a
tier-1 candidate, yet the selector skips the any-direction tier (entered
only with more than one match) and returns the idle elevator 1, whose
queue does not contain floor 5. -/
theorem C5_counterexample :
    PsoService.tier1Candidates
      [{ id := 0, currentFloor := 7, targetFloors := [5, 3],
         status := Status.down },
       { id := 1, currentFloor := 0, targetFloors := [],
         status := Status.idle }] 5 1 = [] ∧
    PsoService.targetingCandidates
      [{ id := 0, currentFloor := 7, targetFloors := [5, 3],
         status := Status.down },
       { id := 1, currentFloor := 0, targetFloors := [],
         status := Status.idle }] 5 =
      [{ id := 0, currentFloor := 7, targetFloors := [5, 3],
         status := Status.down }] ∧
    PsoService.selectBestElevator
      [{ id := 0, currentFloor := 7, targetFloors := [5, 3],
         status := Status.down },
       { id := 1, currentFloor := 0, targetFloors := [],
         status := Status.idle }] 5 1 =
      some { id := 1, currentFloor := 0, targetFloors := [],
             status := Status.idle } ∧
    (5 : Int) ∉ ([] : List Int) := by
  decide

/-- C5 amended: when the tier-1 set is empty and more than one elevator
queues the call floor, the selector returns one of those elevators with
minimal distance to the call floor; with exactly one such elevator the
any-direction tier is skipped and later tiers are consulted. -/
theorem C5_targeting_any_direction (elevators : List Elevator)
    (callFloor direction : Int)
    (h1 : PsoService.tier1Candidates elevators callFloor direction = [])
    (h2 : (PsoService.targetingCandidates elevators callFloor).length > 1) :
    ∃ e, PsoService.selectBestElevator elevators callFloor direction = some e ∧
      e ∈ PsoService.targetingCandidates elevators callFloor ∧
      ∀ x ∈ PsoService.targetingCandidates elevators callFloor,
        |e.currentFloor - callFloor| ≤ |x.currentFloor - callFloor| := by
  have hne : PsoService.targetingCandidates elevators callFloor ≠ [] := by
    intro heq
    rw [heq] at h2
    simp at h2
  obtain ⟨e, he, hmem, hmin⟩ :=
    PsoService.getClosestElevator_spec _ callFloor hne
  refine ⟨e, ?_, hmem, hmin⟩
  unfold PsoService.selectBestElevator
  rw [if_neg (by rw [h1]; simp), if_pos h2]
  exact he

/-- C5 witness: two elevators queue floor 5 (both moving down, so no tier-1
candidate for an up call); the closer one at floor 6 is selected. -/
theorem C5_witness :
    ∃ e, PsoService.selectBestElevator
        [{ id := 0, currentFloor := 7, targetFloors := [5, 3],
           status := Status.down },
         { id := 1, currentFloor := 6, targetFloors := [5],
           status := Status.down }] 5 1 = some e ∧
      e ∈ PsoService.targetingCandidates
        [{ id := 0, currentFloor := 7, targetFloors := [5, 3],
           status := Status.down },
         { id := 1, currentFloor := 6, targetFloors := [5],
           status := Status.down }] 5 ∧
      ∀ x ∈ PsoService.targetingCandidates
        [{ id := 0, currentFloor := 7, targetFloors := [5, 3],
           status := Status.down },
         { id := 1, currentFloor := 6, targetFloors := [5],
           status := Status.down }] 5,
        |e.currentFloor - 5| ≤ |x.currentFloor - 5| :=
  C5_targeting_any_direction _ 5 1 (by decide) (by decide)

namespace Algorithm

theorem selectBestElevator_mem_not_off (elevators : List Elevator)
    (callFloor direction : Int) (e : Elevator)
    (h : selectBestElevator elevators callFloor direction = some e) :
    e ∈ elevators ∧ e.status ≠ .off := by
  unfold selectBestElevator at h
  split at h
  · rename_i b hb
    have hb' : b = e := by injection h
    rcases scanLoop_mem _ callFloor elevators none b hb with h' | h'
    · cases h'
    · exact ⟨hb' ▸ h'.1, hb' ▸ h'.2.2⟩
  · split at h
    · rename_i b hb
      have hb' : b = e := by injection h
      rcases scanLoop_mem _ callFloor elevators none b hb with h' | h'
      · cases h'
      · exact ⟨hb' ▸ h'.1, hb' ▸ h'.2.2⟩
    · split at h
      · rename_i b hb
        have hb' : b = e := by injection h
        rcases scanLoop_mem _ callFloor elevators none b hb with h' | h'
        · cases h'
        · exact ⟨hb' ▸ h'.1, hb' ▸ h'.2.2⟩
      · split at h
        · rename_i b hb
          have hb' : b = e := by injection h
          rcases scanLoop_mem _ callFloor elevators none b hb with h' | h'
          · cases h'
          · exact ⟨hb' ▸ h'.1, hb' ▸ h'.2.2⟩
        · rcases scanLoop_mem _ callFloor elevators none e h with h' | h'
          · cases h'
          · exact ⟨h'.1, h'.2.2⟩

end Algorithm

namespace ElevatorService

theorem mem_elevInv (a : Int) :
    ∀ (l : List Elevator) (i : Int), FleetInvFrom a i l →
      ∀ e ∈ l, ElevInv a e.id e := by
  intro l
  induction l with
  | nil => intro i _ e he; cases he
  | cons x rest ih =>
    intro i h e he
    rcases List.mem_cons.mp he with rfl | he'
    · rw [h.1.1]
      exact h.1
    · exact ih (i + 1) h.2 e he'

theorem updateById_fleetInv (a id : Int) (f : Elevator → Elevator)
    (hf : ∀ (i : Int) (e : Elevator),
      ElevInv a i e → e.id = id → ElevInv a i (f e)) :
    ∀ (l : List Elevator) (i : Int),
      FleetInvFrom a i l → FleetInvFrom a i (updateById id f l) := by
  intro l
  induction l with
  | nil => intro i h; exact h
  | cons x rest ih =>
    intro i h
    simp only [updateById]
    by_cases hx : x.id = id
    · rw [if_pos hx]
      exact ⟨hf i x h.1 hx, h.2⟩
    · rw [if_neg hx]
      exact ⟨h.1, ih (i + 1) h.2⟩

theorem updateById_comp (id : Int) (f1 f2 : Elevator → Elevator)
    (hid : ∀ e, (f1 e).id = e.id) :
    ∀ l : List Elevator,
      updateById id f2 (updateById id f1 l) =
        updateById id (fun e => f2 (f1 e)) l := by
  intro l
  induction l with
  | nil => rfl
  | cons x rest ih =>
    simp only [updateById]
    by_cases hx : x.id = id
    · rw [if_pos hx]
      simp only [updateById]
      rw [if_pos (by rw [hid x]; exact hx), if_pos hx]
    · rw [if_neg hx]
      simp only [updateById]
      rw [if_neg hx, if_neg hx, ih]

theorem map_fleetInv (a : Int) (f : Elevator → Elevator)
    (hf : ∀ (i : Int) (e : Elevator), ElevInv a i e → ElevInv a i (f e)) :
    ∀ (l : List Elevator) (i : Int),
      FleetInvFrom a i l → FleetInvFrom a i (l.map f) := by
  intro l
  induction l with
  | nil => intro i h; exact h
  | cons x rest ih =>
    intro i h
    exact ⟨hf i x h.1, ih (i + 1) h.2⟩

theorem mapWithIndex_comp (f g : Int → Elevator → Elevator) :
    ∀ (l : List Elevator) (i : Int),
      mapWithIndex f i (mapWithIndex g i l) =
        mapWithIndex (fun j e => f j (g j e)) i l := by
  intro l
  induction l with
  | nil => intro i; rfl
  | cons x rest ih =>
    intro i
    simp only [mapWithIndex]
    rw [ih]

theorem mapWithIndex_congr (f g : Int → Elevator → Elevator)
    (hfg : ∀ j e, f j e = g j e) :
    ∀ (l : List Elevator) (i : Int), mapWithIndex f i l = mapWithIndex g i l := by
  intro l
  induction l with
  | nil => intro i; rfl
  | cons x rest ih =>
    intro i
    simp only [mapWithIndex]
    rw [hfg, ih]

theorem initElevators_fleetInvFrom (a : Int) :
    ∀ (count : Nat) (i : Int), FleetInvFrom a i (initElevators a count i) := by
  intro count
  induction count with
  | zero => intro i; trivial
  | succ n ih =>
    intro i
    refine ⟨⟨rfl, ?_, ?_, ?_⟩, ih (i + 1)⟩
    · show (if i < a then Status.idle else Status.off) = Status.off ↔ i ≥ a
      split_ifs with hi
      · simp
        omega
      · simp
        omega
    · show (if i < a then Status.idle else Status.off) = Status.off → _
      split_ifs with hi
      · intro hc
        simp at hc
      · intro _
        exact ⟨rfl, rfl⟩
    · show (if i < a then Status.idle else Status.off) ≠ Status.off → _ →
        (if i < a then Status.idle else Status.off) = Status.idle
      split_ifs with hi
      · intro _ _
        rfl
      · intro hc _
        exact absurd rfl hc

theorem stepElevator_elevInv (a i : Int) (e : Elevator) (h : ElevInv a i e) :
    ElevInv a i (stepElevator e) := by
  obtain ⟨hid, hiff, hoffe, hidle⟩ := h
  cases ht : e.targetFloors with
  | nil =>
    have hstep : stepElevator e = e := by
      unfold stepElevator
      rw [ht]
      simp
    rw [hstep]
    exact ⟨hid, hiff, hoffe, hidle⟩
  | cons t rest =>
    by_cases hoff : e.status = .off
    · have hstep : stepElevator e = e := by
        unfold stepElevator
        simp [hoff]
      rw [hstep]
      exact ⟨hid, hiff, hoffe, hidle⟩
    · have hna : ¬ i ≥ a := fun hge => hoff (hiff.mpr hge)
      rcases lt_trichotomy e.currentFloor t with hlt | heq | hgt
      · rw [stepElevator_of_lt e t rest hoff ht hlt]
        refine ⟨hid, ?_, ?_, ?_⟩
        · constructor
          · intro hc
            have hc2 : Status.up = Status.off := hc
            cases hc2
          · intro hge
            exact absurd hge hna
        · intro hc
          have hc2 : Status.up = Status.off := hc
          cases hc2
        · intro _ hemp
          have hemp2 : e.targetFloors = [] := hemp
          rw [ht] at hemp2
          cases hemp2
      · rw [stepElevator_of_eq e t rest hoff ht heq]
        refine ⟨hid, ?_, ?_, ?_⟩
        · constructor
          · intro hc
            have hc2 : (if rest.length > 0 then Status.up else Status.idle) =
                Status.off := hc
            split_ifs at hc2
          · intro hge
            exact absurd hge hna
        · intro hc
          have hc2 : (if rest.length > 0 then Status.up else Status.idle) =
              Status.off := hc
          split_ifs at hc2
        · intro _ hemp
          have hemp2 : rest = [] := hemp
          show (if rest.length > 0 then Status.up else Status.idle) = Status.idle
          rw [hemp2]
          rfl
      · rw [stepElevator_of_gt e t rest hoff ht hgt]
        refine ⟨hid, ?_, ?_, ?_⟩
        · constructor
          · intro hc
            have hc2 : Status.down = Status.off := hc
            cases hc2
          · intro hge
            exact absurd hge hna
        · intro hc
          have hc2 : Status.down = Status.off := hc
          cases hc2
        · intro _ hemp
          have hemp2 : e.targetFloors = [] := hemp
          rw [ht] at hemp2
          cases hemp2

theorem step_fleetInv (building : Building) (h : FleetInv building) :
    FleetInv (step building) :=
  map_fleetInv building.config.activeElevators stepElevator
    (fun i e he => stepElevator_elevInv building.config.activeElevators i e he)
    building.elevators 0 h

theorem insertionSort_append_ne_nil (l : List Int) (t : Int) :
    (l ++ [t]).insertionSort (· ≤ ·) ≠ [] := by
  intro hemp
  have hperm := List.perm_insertionSort (· ≤ ·) (l ++ [t])
  rw [hemp] at hperm
  have := hperm.symm.eq_nil
  simp at this

theorem addTarget_fleetInv (building : Building) (id targetFloor : Int)
    (h : FleetInv building) : FleetInv (addTarget building id targetFloor) := by
  apply updateById_fleetInv _ id _ ?_ building.elevators 0 h
  intro i e he heid
  by_cases hoff : e.status = .off
  · rw [if_neg (show ¬ e.status ≠ Status.off by simp [hoff])]
    exact he
  · rw [if_pos (show e.status ≠ Status.off from hoff)]
    by_cases hmem : targetFloor ∉ e.targetFloors
    · rw [if_pos hmem]
      obtain ⟨hid, hiff, hoffe, hidle⟩ := he
      refine ⟨hid, ?_, ?_, ?_⟩
      · constructor
        · intro hc
          have hc2 : e.status = Status.off := hc
          exact absurd hc2 hoff
        · intro hge
          exact absurd (hiff.mpr hge) hoff
      · intro hc
        have hc2 : e.status = Status.off := hc
        exact absurd hc2 hoff
      · intro _ hemp
        have hemp2 : (e.targetFloors ++ [targetFloor]).insertionSort (· ≤ ·) =
            [] := hemp
        exact absurd hemp2 (insertionSort_append_ne_nil e.targetFloors targetFloor)
    · rw [if_neg hmem]
      exact he

theorem pickup_fleetInv (building : Building) (floor direction : Int)
    (h : FleetInv building) : FleetInv (pickup building floor direction) := by
  unfold pickup
  cases hsel : Algorithm.selectBestElevator building.elevators floor direction with
  | none => exact h
  | some best =>
    obtain ⟨hmem, hboff⟩ :=
      Algorithm.selectBestElevator_mem_not_off _ _ _ _ hsel
    have hbest := mem_elevInv building.config.activeElevators
      building.elevators 0 h best hmem
    have hna : ¬ best.id ≥ building.config.activeElevators :=
      fun hge => hboff (hbest.2.1.mpr hge)
    show FleetInvFrom building.config.activeElevators 0
      (updateStatus
        (updateById best.id
          (fun e => { e with targetFloors := e.targetFloors ++ [floor] })
          building.elevators)
        best.id best.currentFloor floor)
    unfold updateStatus
    rw [updateById_comp best.id
      (fun e => { e with targetFloors := e.targetFloors ++ [floor] }) _
      (fun e => rfl)]
    apply updateById_fleetInv _ best.id _ ?_ building.elevators 0 h
    intro i e he heid
    have hei : i = best.id := by rw [← he.1, heid]
    have henoff : e.status ≠ .off :=
      fun hoffe => hna (hei ▸ he.2.1.mp hoffe)
    dsimp only
    rw [if_pos (show ({ e with targetFloors := e.targetFloors ++ [floor] } :
        Elevator).status ≠ Status.off from henoff)]
    obtain ⟨hid, hiff, hoffe, hidle⟩ := he
    refine ⟨hid, ?_, ?_, ?_⟩
    · constructor
      · intro hc
        have hc2 : (if floor > best.currentFloor then Status.up else
            Status.down) = Status.off := hc
        split_ifs at hc2
      · intro hge
        exact absurd hge (hei ▸ hna)
    · intro hc
      have hc2 : (if floor > best.currentFloor then Status.up else
          Status.down) = Status.off := hc
      split_ifs at hc2
    · intro _ hemp
      have hemp2 : e.targetFloors ++ [floor] = [] := hemp
      simp at hemp2

theorem reset_fleetInvFrom (a aNew : Int) :
    ∀ (l : List Elevator) (i : Int), FleetInvFrom a i l →
      FleetInvFrom aNew i
        (mapWithIndex (fun index elevator =>
          if index < aNew then
            { elevator with currentFloor := 0, targetFloors := [], status := Status.idle }
          else
            { elevator with currentFloor := 0, targetFloors := [], status := Status.off }) i l) := by
  intro l
  induction l with
  | nil => intro i _; trivial
  | cons x rest ih =>
    intro i h
    refine ⟨?_, ih (i + 1) h.2⟩
    dsimp only
    by_cases hi : i < aNew
    · rw [if_pos hi]
      refine ⟨h.1.1, ?_, ?_, ?_⟩
      · constructor
        · intro hc
          cases hc
        · intro hge
          omega
      · intro hc
        cases hc
      · intro _ _
        rfl
    · rw [if_neg hi]
      refine ⟨h.1.1, ?_, ?_, ?_⟩
      · constructor
        · intro _
          omega
        · intro _
          rfl
      · intro _
        exact ⟨rfl, rfl⟩
      · intro hc _
        exact absurd rfl hc

theorem configureBuilding_fleetInv (building : Building)
    (numberOfFloors activeElevators : Int) (h : FleetInv building) :
    FleetInv (configureBuilding building numberOfFloors activeElevators) := by
  show FleetInvFrom activeElevators 0 _
  unfold configureBuilding resetElevators updateConfig
  dsimp only
  rw [mapWithIndex_comp]
  rw [mapWithIndex_congr _ (fun index elevator =>
      if index < activeElevators then
        { elevator with currentFloor := 0, targetFloors := [], status := Status.idle }
      else
        { elevator with currentFloor := 0, targetFloors := [], status := Status.off }) ?_]
  · exact reset_fleetInvFrom building.config.activeElevators activeElevators
      building.elevators 0 h
  · intro j e
    by_cases hj : j < activeElevators
    · simp [hj, show ¬ j ≥ activeElevators from by omega]
    · simp [hj, show j ≥ activeElevators from by omega]

end ElevatorService

/-- C8: the fleet invariant - status Off exactly for ids at or beyond
activeElevatorCount, Off elevators at floor 0 with empty queues, and
non-Off elevators with empty queues Idle (together with the data model's
id-equals-slot-index fact, which the operations rely on) - holds for every
freshly constructed building and is preserved by every operation
(Configure, Pickup, AddTarget, Step, GetStatus). -/
theorem C8_fleet_invariant :
    (∀ numberOfFloors activeElevators : Int,
      ElevatorService.FleetInv
        (ElevatorService.Building.create numberOfFloors activeElevators)) ∧
    ∀ (building : Building) (op : ElevatorService.Op),
      ElevatorService.FleetInv building →
        ElevatorService.FleetInv (ElevatorService.applyOp building op) := by
  constructor
  · intro numberOfFloors activeElevators
    exact ElevatorService.initElevators_fleetInvFrom activeElevators 16 0
  · intro building op h
    cases op with
    | configure numberOfFloors activeElevators =>
      exact ElevatorService.configureBuilding_fleetInv building
        numberOfFloors activeElevators h
    | pickupOp floor direction =>
      exact ElevatorService.pickup_fleetInv building floor direction h
    | addTargetOp id targetFloor =>
      exact ElevatorService.addTarget_fleetInv building id targetFloor h
    | stepOp => exact ElevatorService.step_fleetInv building h
    | getStatusOp => exact h

/-- C8 witness: the invariant for the default building (10 floors, 5 active
elevators) and its preservation across one concrete step. -/
theorem C8_witness :
    ElevatorService.FleetInv (ElevatorService.Building.create 10 5) ∧
    ElevatorService.FleetInv
      (ElevatorService.applyOp (ElevatorService.Building.create 10 5)
        (ElevatorService.Op.pickupOp 7 1)) :=
  ⟨C8_fleet_invariant.1 10 5,
    C8_fleet_invariant.2 (ElevatorService.Building.create 10 5)
      (ElevatorService.Op.pickupOp 7 1) (by decide)⟩

namespace ElevatorService

theorem updateById_mem (id : Int) (f : Elevator → Elevator) :
    ∀ (l : List Elevator) (x : Elevator),
      x ∈ updateById id f l → x ∈ l ∨ ∃ e ∈ l, x = f e := by
  intro l
  induction l with
  | nil => intro x hx; cases hx
  | cons y rest ih =>
    intro x hx
    simp only [updateById] at hx
    by_cases hy : y.id = id
    · rw [if_pos hy] at hx
      rcases List.mem_cons.mp hx with rfl | hx'
      · exact Or.inr ⟨y, List.mem_cons_self _ _, rfl⟩
      · exact Or.inl (List.mem_cons_of_mem _ hx')
    · rw [if_neg hy] at hx
      rcases List.mem_cons.mp hx with rfl | hx'
      · exact Or.inl (List.mem_cons_self _ _)
      · rcases ih x hx' with h' | ⟨e, he, hfe⟩
        · exact Or.inl (List.mem_cons_of_mem _ h')
        · exact Or.inr ⟨e, List.mem_cons_of_mem _ he, hfe⟩

theorem mapWithIndex_mem (f : Int → Elevator → Elevator) :
    ∀ (l : List Elevator) (i : Int) (x : Elevator),
      x ∈ mapWithIndex f i l → ∃ j e, e ∈ l ∧ x = f j e := by
  intro l
  induction l with
  | nil => intro i x hx; cases hx
  | cons y rest ih =>
    intro i x hx
    rcases List.mem_cons.mp hx with rfl | hx'
    · exact ⟨i, y, List.mem_cons_self _ _, rfl⟩
    · obtain ⟨j, e, he, hxe⟩ := ih (i + 1) x hx'
      exact ⟨j, e, List.mem_cons_of_mem _ he, hxe⟩

theorem stepElevator_elevRange (n : Int) (e : Elevator) (h : ElevRange n e) :
    ElevRange n (stepElevator e) := by
  obtain ⟨h0, h1, htargets⟩ := h
  cases ht : e.targetFloors with
  | nil =>
    have hstep : stepElevator e = e := by
      unfold stepElevator
      rw [ht]
      simp
    rw [hstep]
    exact ⟨h0, h1, htargets⟩
  | cons t rest =>
    have htr : 0 ≤ t ∧ t ≤ n - 1 :=
      htargets t (by rw [ht]; exact List.mem_cons_self _ _)
    by_cases hoff : e.status = .off
    · have hstep : stepElevator e = e := by
        unfold stepElevator
        simp [hoff]
      rw [hstep]
      exact ⟨h0, h1, htargets⟩
    · rcases lt_trichotomy e.currentFloor t with hlt | heq | hgt
      · rw [stepElevator_of_lt e t rest hoff ht hlt]
        refine ⟨?_, ?_, ?_⟩
        · show 0 ≤ e.currentFloor + 1
          omega
        · show e.currentFloor + 1 ≤ n - 1
          omega
        · intro x hx
          have hx2 : x ∈ e.targetFloors := hx
          exact htargets x hx2
      · rw [stepElevator_of_eq e t rest hoff ht heq]
        refine ⟨h0, h1, ?_⟩
        intro x hx
        have hx2 : x ∈ rest := hx
        exact htargets x (by rw [ht]; exact List.mem_cons_of_mem _ hx2)
      · rw [stepElevator_of_gt e t rest hoff ht hgt]
        refine ⟨?_, ?_, ?_⟩
        · show 0 ≤ e.currentFloor - 1
          omega
        · show e.currentFloor - 1 ≤ n - 1
          omega
        · intro x hx
          have hx2 : x ∈ e.targetFloors := hx
          exact htargets x hx2

theorem rangeInv_step (building : Building) (h : RangeInv building) :
    RangeInv (step building) := by
  refine ⟨h.1, ?_⟩
  intro x hx
  obtain ⟨e, he, hxe⟩ := List.mem_map.mp hx
  rw [← hxe]
  exact stepElevator_elevRange _ e (h.2 e he)

theorem rangeInv_configure (building : Building)
    (numberOfFloors activeElevators : Int) (hn : 1 ≤ numberOfFloors) :
    RangeInv (configureBuilding building numberOfFloors activeElevators) := by
  refine ⟨hn, ?_⟩
  intro x hx
  unfold configureBuilding resetElevators at hx
  obtain ⟨j, y, _, hxy⟩ := mapWithIndex_mem _ _ 0 x hx
  rw [hxy]
  by_cases hj : j < activeElevators
  · rw [if_pos hj]
    refine ⟨le_refl 0, ?_, ?_⟩
    · show (0 : Int) ≤ numberOfFloors - 1
      omega
    · intro t htmem
      have h2 : t ∈ ([] : List Int) := htmem
      cases h2
  · rw [if_neg hj]
    refine ⟨le_refl 0, ?_, ?_⟩
    · show (0 : Int) ≤ numberOfFloors - 1
      omega
    · intro t htmem
      have h2 : t ∈ ([] : List Int) := htmem
      cases h2

theorem rangeInv_addTarget (building : Building) (id targetFloor : Int)
    (h : RangeInv building)
    (ht : 0 ≤ targetFloor ∧
      targetFloor ≤ building.config.numberOfFloors - 1) :
    RangeInv (addTarget building id targetFloor) := by
  refine ⟨h.1, ?_⟩
  intro x hx
  rcases updateById_mem _ _ _ x hx with hx2 | ⟨e, he, hxe⟩
  · exact h.2 x hx2
  · rw [hxe]
    by_cases hoff : e.status ≠ Status.off
    · rw [if_pos hoff]
      by_cases hmem : targetFloor ∉ e.targetFloors
      · rw [if_pos hmem]
        refine ⟨(h.2 e he).1, (h.2 e he).2.1, ?_⟩
        intro u hu
        have hu2 : u ∈ (e.targetFloors ++ [targetFloor]).insertionSort
            (· ≤ ·) := hu
        have hu3 : u ∈ e.targetFloors ++ [targetFloor] :=
          (List.perm_insertionSort _ _).mem_iff.mp hu2
        rcases List.mem_append.mp hu3 with h3 | h3
        · exact (h.2 e he).2.2 u h3
        · rcases List.mem_singleton.mp h3 with rfl
          exact ht
      · rw [if_neg hmem]
        exact h.2 e he
    · rw [if_neg hoff]
      exact h.2 e he

theorem rangeInv_pickup (building : Building) (floor direction : Int)
    (h : RangeInv building)
    (hf : 0 ≤ floor ∧ floor ≤ building.config.numberOfFloors - 1) :
    RangeInv (pickup building floor direction) := by
  unfold pickup
  cases hsel : Algorithm.selectBestElevator building.elevators floor direction with
  | none => exact h
  | some best =>
    refine ⟨h.1, ?_⟩
    intro x hx
    have hpushed : ∀ y ∈ updateById best.id
        (fun e => { e with targetFloors := e.targetFloors ++ [floor] })
        building.elevators,
        ElevRange building.config.numberOfFloors y := by
      intro y hy
      rcases updateById_mem _ _ _ y hy with hy2 | ⟨e, he, hye⟩
      · exact h.2 y hy2
      · rw [hye]
        refine ⟨(h.2 e he).1, (h.2 e he).2.1, ?_⟩
        intro u hu
        have hu2 : u ∈ e.targetFloors ++ [floor] := hu
        rcases List.mem_append.mp hu2 with h3 | h3
        · exact (h.2 e he).2.2 u h3
        · rcases List.mem_singleton.mp h3 with rfl
          exact hf
    unfold updateStatus at hx
    rcases updateById_mem _ _ _ x hx with hx2 | ⟨e, he, hxe⟩
    · exact hpushed x hx2
    · rw [hxe]
      by_cases hoff : e.status ≠ Status.off
      · rw [if_pos hoff]
        exact ⟨(hpushed e he).1, (hpushed e he).2.1, (hpushed e he).2.2⟩
      · rw [if_neg hoff]
        exact hpushed e he

end ElevatorService

namespace ElevatorService

theorem rangeInv_applyOp (building : Building) (op : Op)
    (h : RangeInv building) (hop : OpOk building op) :
    RangeInv (applyOp building op) := by
  cases op with
  | configure numberOfFloors activeElevators =>
    exact rangeInv_configure building numberOfFloors activeElevators hop
  | pickupOp floor direction =>
    exact rangeInv_pickup building floor direction h hop
  | addTargetOp id targetFloor =>
    exact rangeInv_addTarget building id targetFloor h hop
  | stepOp => exact rangeInv_step building h
  | getStatusOp => exact h

theorem rangeInv_runOps :
    ∀ (ops : List Op) (building : Building),
      RangeInv building → OpsOk building ops → RangeInv (runOps building ops) := by
  intro ops
  induction ops with
  | nil => intro building h _; exact h
  | cons op rest ih =>
    intro building h hok
    show RangeInv (runOps (applyOp building op) rest)
    exact ih (applyOp building op) (rangeInv_applyOp building op h hok.1) hok.2

end ElevatorService

/-- C9 counterexample: currentFloor does not stay in 0..numberOfFloors-1.
addTarget performs no floor-range validation: adding target 15 to elevator
0 of the default 10-floor building and stepping 10 times leaves elevator 0
at currentFloor 10 while numberOfFloors is 10, and 10 is not at most
10 - 1.  Configure is not validated either: Configure(0, 5) leaves
elevator 0 at currentFloor 0 while numberOfFloors is 0, and 0 is not at
most 0 - 1 - no floor lies in the empty range at all. -/
theorem C9_counterexample :
    (ElevatorService.runOps (ElevatorService.Building.create 10 5)
        (ElevatorService.Op.addTargetOp 0 15 ::
          List.replicate 10 ElevatorService.Op.stepOp)).config.numberOfFloors
      = 10 ∧
    (ElevatorService.runOps (ElevatorService.Building.create 10 5)
        (ElevatorService.Op.addTargetOp 0 15 ::
          List.replicate 10 ElevatorService.Op.stepOp)).elevators.head?.map
      Elevator.currentFloor = some 10 ∧
    ¬ ((10 : Int) ≤ 10 - 1) ∧
    (ElevatorService.runOps (ElevatorService.Building.create 10 5)
        [ElevatorService.Op.configure 0 5]).config.numberOfFloors = 0 ∧
    (ElevatorService.runOps (ElevatorService.Building.create 10 5)
        [ElevatorService.Op.configure 0 5]).elevators.head?.map
      Elevator.currentFloor = some 0 ∧
    ¬ ((0 : Int) ≤ 0 - 1) := by
  decide

/-- C9 amended: after every sequence of operations from the initial
building, every elevator's currentFloor lies in 0..numberOfFloors-1 of the
current configuration, PROVIDED each Pickup/AddTarget floor argument was
within the then-current range and each Configure kept numberOfFloors at
least 1; the code itself validates none of these inputs. -/
theorem C9_floor_range (ops : List ElevatorService.Op)
    (hok : ElevatorService.OpsOk (ElevatorService.Building.create 10 5) ops) :
    ∀ e ∈ (ElevatorService.runOps (ElevatorService.Building.create 10 5)
        ops).elevators,
      0 ≤ e.currentFloor ∧
      e.currentFloor ≤
        (ElevatorService.runOps (ElevatorService.Building.create 10 5)
          ops).config.numberOfFloors - 1 := by
  intro e he
  have h := ElevatorService.rangeInv_runOps ops
    (ElevatorService.Building.create 10 5) (by decide) hok
  exact ⟨(h.2 e he).1, (h.2 e he).2.1⟩

/-- C9 witness: the in-range sequence addTarget(0,5); Step leaves elevator
0 at floor 1, inside 0..9. -/
theorem C9_witness :
    0 ≤ ({ id := 0, currentFloor := 1, targetFloors := [5], status := Status.up } : Elevator).currentFloor ∧
    ({ id := 0, currentFloor := 1, targetFloors := [5], status := Status.up } : Elevator).currentFloor ≤
      (ElevatorService.runOps (ElevatorService.Building.create 10 5)
        [ElevatorService.Op.addTargetOp 0 5,
         ElevatorService.Op.stepOp]).config.numberOfFloors - 1 :=
  C9_floor_range
    [ElevatorService.Op.addTargetOp 0 5, ElevatorService.Op.stepOp]
    (by decide)
    { id := 0, currentFloor := 1, targetFloors := [5], status := Status.up }
    (by decide)

namespace ElevatorService

theorem updateById_append (id : Int) (f : Elevator → Elevator) :
    ∀ (l1 : List Elevator) (e : Elevator) (l2 : List Elevator),
      (∀ x ∈ l1, x.id ≠ id) → e.id = id →
        updateById id f (l1 ++ e :: l2) = l1 ++ f e :: l2 := by
  intro l1
  induction l1 with
  | nil =>
    intro e l2 _ hid
    simp only [List.nil_append, updateById]
    rw [if_pos hid]
  | cons y rest ih =>
    intro e l2 hl1 hid
    simp only [List.cons_append, updateById, List.append_eq]
    rw [if_neg (hl1 y (List.mem_cons_self _ _)),
      ih e l2 (fun x hx => hl1 x (List.mem_cons_of_mem _ hx)) hid]

end ElevatorService

/-- C10 counterexample: starting from the default building, two pickups at
floor 5 queue the duplicate [5,5] on elevator 0 (pickup pushes without a
membership check); addTarget(0, 4) then inserts 4 and sorts, leaving
[4,5,5] - sorted ascending but not duplicate-free, refuting the claim's
"hence duplicate-free". -/
theorem C10_counterexample :
    (ElevatorService.runOps (ElevatorService.Building.create 10 5)
        [ElevatorService.Op.pickupOp 5 1, ElevatorService.Op.pickupOp 5 1,
         ElevatorService.Op.addTargetOp 0 4]).elevators.head?.map
      Elevator.targetFloors = some [4, 5, 5] ∧
    ¬ ([4, 5, 5] : List Int).Nodup := by
  decide

/-- C10 amended: for the first elevator with the requested id (known, not
Off): if the target floor is already queued, AddTarget leaves the whole
fleet unchanged; otherwise it inserts the floor and leaves the queue sorted
ascending - a permutation of the old queue plus the new floor, and
duplicate-free whenever the old queue was duplicate-free (duplicates
already present, reachable through pickup, are retained). -/
theorem C10_addTarget_sorted_insert (config : BuildingConfig)
    (l1 l2 : List Elevator) (e : Elevator) (id targetFloor : Int)
    (hl1 : ∀ x ∈ l1, x.id ≠ id) (hid : e.id = id)
    (hoff : e.status ≠ Status.off) :
    (targetFloor ∈ e.targetFloors →
      ElevatorService.addTarget ⟨config, l1 ++ e :: l2⟩ id targetFloor =
        ⟨config, l1 ++ e :: l2⟩) ∧
    (targetFloor ∉ e.targetFloors →
      ElevatorService.addTarget ⟨config, l1 ++ e :: l2⟩ id targetFloor =
        ⟨config, l1 ++ { e with targetFloors :=
          (e.targetFloors ++ [targetFloor]).insertionSort (· ≤ ·) } :: l2⟩ ∧
      List.Sorted (· ≤ ·)
        ((e.targetFloors ++ [targetFloor]).insertionSort (· ≤ ·)) ∧
      ((e.targetFloors ++ [targetFloor]).insertionSort (· ≤ ·)).Perm
        (e.targetFloors ++ [targetFloor]) ∧
      (e.targetFloors.Nodup →
        ((e.targetFloors ++ [targetFloor]).insertionSort (· ≤ ·)).Nodup)) := by
  constructor
  · intro hmem
    unfold ElevatorService.addTarget
    dsimp only
    rw [ElevatorService.updateById_append id _ l1 e l2 hl1 hid]
    rw [if_pos hoff, if_neg (not_not_intro hmem)]
  · intro hnot
    refine ⟨?_, ?_, ?_, ?_⟩
    · unfold ElevatorService.addTarget
      dsimp only
      rw [ElevatorService.updateById_append id _ l1 e l2 hl1 hid]
      rw [if_pos hoff, if_pos hnot]
    · exact List.sorted_insertionSort _ _
    · exact List.perm_insertionSort _ _
    · intro hnd
      have hnd2 : (e.targetFloors ++ [targetFloor]).Nodup := by
        rw [List.nodup_append]
        refine ⟨hnd, List.nodup_singleton targetFloor, ?_⟩
        intro a ha hb
        rcases List.mem_singleton.mp hb with rfl
        exact hnot ha
      exact ((List.perm_insertionSort _ _).nodup_iff).mpr hnd2

/-- C10 witness: the amended statement at a one-elevator fleet with queue
[5]: addTarget(0, 3) yields the sorted queue [3,5]. -/
theorem C10_witness :
    ElevatorService.addTarget
      ⟨{ numberOfFloors := 10, activeElevators := 5 },
       [{ id := 0, currentFloor := 0, targetFloors := [5],
          status := Status.up }]⟩ 0 3 =
      ⟨{ numberOfFloors := 10, activeElevators := 5 },
       [{ id := 0, currentFloor := 0, targetFloors := [3, 5],
          status := Status.up }]⟩ ∧
    List.Sorted (· ≤ ·) ([3, 5] : List Int) := by
  have h := (C10_addTarget_sorted_insert
    { numberOfFloors := 10, activeElevators := 5 } [] []
    { id := 0, currentFloor := 0, targetFloors := [5], status := Status.up }
    0 3 (by intro x hx; cases hx) rfl (by decide)).2 (by decide)
  exact ⟨h.1, h.2.1⟩

end ElevatorControlSystem
